import Mathlib

/-!
Verification of the neobft experiment orchestration script
(`scripts/neo100-run.py`): a shallow embedding of the address-book
loading, the relay fan-out replica partition, the client drain /
metrics-aggregation loop, and the adaptive calibration sweep, together
with theorems settling the specification's claims about them.
-/

namespace Neo100

/-- Python list slice `l[a:b]` for natural indices `a ≤ b` (clamped to the
list length, empty when `a ≥ b`). -/
def pySlice (l : List α) (a b : Nat) : List α := (l.drop a).take (b - a)

/-- Replica slice assigned to leaf relay `i`, from the `launch` closure in
`evaluate`: `replica_addresses[replica_count * i // relay_count :
replica_count * (i + 1) // relay_count]`. -/
def leafSlice (rs : List α) (n relayCount i : Nat) : List α :=
  pySlice rs (n * i / relayCount) (n * (i + 1) / relayCount)

/-- Uncaught Python exceptions that the script can raise: a failed
`assert`, a `ValueError` from tuple unpacking or `int()`, and the
`NameError` from printing the never-assigned `latency` variable. -/
inductive PyErr where
  | assertionError
  | valueError
  | nameError
deriving DecidableEq, Repr

/-- One launched client process as observed by the collect loop: its exit
code and its decoded standard output split into lines
(`out.decode().splitlines()`); standard error text is captured too but
only echoed to the diagnostic stream. -/
structure Client where
  returncode : Int
  stdoutLines : List String
  errText : String
deriving DecidableEq, Repr

/-- ASCII whitespace as stripped by Python's `str.strip()` / `int()`. -/
def isPySpace (c : Char) : Bool :=
  c = ' ' || c = '\t' || c = '\n' || c = '\r'

/-- Digit-string accumulator for `int()`. -/
def parseDigitsGo : List Char → Nat → Option Nat
  | [], acc => some acc
  | c :: cs, acc =>
    if c.isDigit then parseDigitsGo cs (acc * 10 + (c.toNat - 48)) else none

/-- A non-empty all-digit character run, as a natural number. -/
def parseDigits (cs : List Char) : Option Nat :=
  if cs.isEmpty then none else parseDigitsGo cs 0

/-- Characters of a string with surrounding whitespace removed
(Python `str.strip()`). -/
def stripChars (cs : List Char) : List Char :=
  ((cs.dropWhile isPySpace).reverse.dropWhile isPySpace).reverse

/-- Python `str.strip()`. -/
def pyStrip (s : String) : String := String.mk (stripChars s.data)

/-- Python `int(s)` on a string, as used on a client's first output line:
ignores surrounding whitespace, accepts an optional sign followed by
digits, raises `ValueError` (here: `none`) otherwise. -/
def parsePyInt (s : String) : Option Int :=
  match stripChars s.data with
  | '-' :: rest => (parseDigits rest).map (fun n => -(n : Int))
  | '+' :: rest => (parseDigits rest).map (fun n => (n : Int))
  | rest => (parseDigits rest).map (fun n => (n : Int))

instance exceptDecEq {ε α : Type} [DecidableEq ε] [DecidableEq α] :
    DecidableEq (Except ε α) := fun x y =>
  match x, y with
  | .ok a, .ok b =>
    if h : a = b then isTrue (by rw [h])
    else isFalse (by intro hc; cases hc; exact h rfl)
  | .error a, .error b =>
    if h : a = b then isTrue (by rw [h])
    else isFalse (by intro hc; cases hc; exact h rfl)
  | .ok _, .error _ => isFalse (by intro hc; cases hc)
  | .error _, .ok _ => isFalse (by intro hc; cases hc)

/-- The two-line unpacking `[client_count, latency] = out.splitlines()`
followed by `int(client_count)`: `some (count, latency)` when the output
is exactly two lines with an integer first line, `none` when either step
raises `ValueError`. -/
def parsesTwo (c : Client) : Option (Int × String) :=
  match c.stdoutLines with
  | [l1, l2] => (parsePyInt l1).map (fun n => (n, l2))
  | _ => none

/-- The collect loop of `evaluate` (lines 136-144): iterates over the
clients in launch order, draining (`communicate`) each one in turn.  A
non-zero exit code sets `count = None` and `break`s out of the loop; a
malformed output raises `ValueError`.  Returns how many clients were
drained, and either the uncaught exception or the final
`(count, latency)` pair (`count = none` meaning the round failed,
`latency` being the last value assigned to the loop's `latency`
variable, `none` if never assigned). -/
def drainGo : List Client → Int → Option String →
    Nat × Except PyErr (Option Int × Option String)
  | [], count, latency => (0, .ok (some count, latency))
  | c :: rest, count, latency =>
    if c.returncode ≠ 0 then
      (1, .ok (none, latency))
    else
      match parsesTwo c with
      | some (n, l2) =>
        let r := drainGo rest (count + n) (some l2)
        (r.1 + 1, r.2)
      | none => (1, .error .valueError)

/-- The value `evaluate` returns for a round (lines 136-151 plus the
`return count`): number of clients drained, and the returned `count`
(`none` = round Failure) or the uncaught exception terminating the
process (a `ValueError` from parsing, or the `NameError` hit by the
final `print` when no client ever assigned `latency`). -/
def collectResult (clients : List Client) : Nat × Except PyErr (Option Int) :=
  match drainGo clients 0 none with
  | (d, .error e) => (d, .error e)
  | (d, .ok (none, _)) => (d, .ok none)
  | (d, .ok (some _, none)) => (d, .error .nameError)
  | (d, .ok (some cnt, some _)) => (d, .ok (some cnt))

/-- The reported metrics line
`print('Throughput', count / 10, 'op/sec', latency.strip())`:
aggregate throughput `count / 10` (Python true division, modelled in `ℚ`)
and the stripped latency sample, or `none` when the round failed (nothing
printed), or the uncaught exception. -/
def collectReport (clients : List Client) : Except PyErr (Option (ℚ × String)) :=
  match drainGo clients 0 none with
  | (_, .error e) => .error e
  | (_, .ok (none, _)) => .ok none
  | (_, .ok (some _, none)) => .error .nameError
  | (_, .ok (some cnt, some lat)) => .ok (some ((cnt : ℚ) / 10, pyStrip lat))

/-- One calibration update from `__main__` (lines 178-185), acting on the
state `(client_count, step)`.  `retry = true` means the round was a
Failure (`evaluate` returned `None`):

    if retry:
        client_count -= step
        client_count = max(client_count, 1)
    else:
        step = max(step // 2, 1)
        client_count += step
        client_count = min(client_count, 100)

Python integers are unbounded and `//` is floor division, so the state is
modelled in `ℤ` with `Int.fdiv`. -/
def calibUpdate (s : Int × Int) (retry : Bool) : Int × Int :=
  if retry then
    (max (s.1 - s.2) 1, s.2)
  else
    (min (s.1 + max (s.2.fdiv 2) 1) 100, max (s.2.fdiv 2) 1)

/-- The states reached by `n` consecutive calibration rounds starting at
state `s`, round `k` of the sweep having outcome `oracle k`
(`true` = Failure/retry); one list entry per executed `evaluate` round. -/
def roundsGo (oracle : Nat → Bool) : Nat → Nat → Int × Int → List (Int × Int)
  | _, 0, _ => []
  | k, n + 1, s =>
    calibUpdate s (oracle k) :: roundsGo oracle (k + 1) n (calibUpdate s (oracle k))

/-- One fault parameter's calibration sweep: `step = 10`, then
`for _ in range(10)` rounds; returns the post-update state of every
executed round. -/
def sweepTrace (oracle : Nat → Bool) (cc : Int) : List (Int × Int) :=
  roundsGo oracle 0 10 (cc, 10)

/-- The `(client_count, step)` state a sweep leaves behind. -/
def sweepEnd (oracle : Nat → Bool) (cc : Int) : Int × Int :=
  (sweepTrace oracle cc).getLastD (cc, 10)

/-- The fault parameters of the sweep: `range(1, 34, 4)` (the loop
variable is called `replica_count` in the script but is passed to
`evaluate` as its `f` argument). -/
def fVals : List Nat := (List.range 9).map (fun k => 1 + 4 * k)

/-- All post-update calibration states over a list of fault parameters,
threading `client_count` from one sweep into the next while each sweep
restarts with `step = 10`; `oracle f k` is round `k`'s outcome in fault
parameter `f`'s sweep. -/
def mainGo (oracle : Nat → Nat → Bool) : Int → List Nat → List (Int × Int)
  | _, [] => []
  | cc, fv :: rest =>
    sweepTrace (oracle fv) cc ++ mainGo oracle (sweepEnd (oracle fv) cc).1 rest

/-- All post-update calibration states of the whole run
(`client_count = 90` before the first sweep). -/
def mainStates (oracle : Nat → Nat → Bool) : List (Int × Int) :=
  mainGo oracle 90 fVals

/-- The `(client_count, step)` state in force when each fault parameter's
sweep begins its first round (i.e. just after the `step = 10`
assignment at the top of the outer loop's body). -/
def sweepEntries (oracle : Nat → Nat → Bool) : Int → List Nat → List (Int × Int)
  | _, [] => []
  | cc, fv :: rest =>
    (cc, 10) :: sweepEntries oracle (sweepEnd (oracle fv) cc).1 rest

/-- Sweep-entry states of the whole run. -/
def mainEntries (oracle : Nat → Nat → Bool) : List (Int × Int) :=
  sweepEntries oracle 90 fVals

/-- The role field of a line of `addresses.txt`; roles other than the
four recognized ones are ignored by every branch of the loading loop. -/
inductive Role where
  | replica
  | client
  | seq
  | relay
  | other
deriving DecidableEq, Repr

/-- One parsed line of `addresses.txt`:
`[role, public_address, address] = line.split()`. -/
structure AddrLine where
  role : Role
  pub : String
  internal : String
deriving DecidableEq, Repr

/-- The four address collections built by the loading loop in `evaluate`
(lines 39-50); clients record `(public_address, None)`. -/
structure Addresses where
  seqAddress : Option (String × String)
  replicaAddresses : List (String × String)
  clientAddresses : List (String × Option String)
  relayAddresses : List (String × String)
deriving DecidableEq, Repr

/-- Processing of one address line by the loading loop: replicas and
clients are appended only while below their requested counts, the first
`seq` line wins (`seq_address = seq_address or (...)`), every `relay`
line is appended. -/
def stepLine (rc cc : Nat) (a : Addresses) (l : AddrLine) : Addresses :=
  let a := if l.role = Role.replica ∧ a.replicaAddresses.length < rc then
    { a with replicaAddresses := a.replicaAddresses ++ [(l.pub, l.internal)] }
  else a
  let a := if l.role = Role.client ∧ a.clientAddresses.length < cc then
    { a with clientAddresses := a.clientAddresses ++ [(l.pub, none)] }
  else a
  let a := if l.role = Role.seq then
    { a with seqAddress := a.seqAddress.orElse (fun _ => some (l.pub, l.internal)) }
  else a
  if l.role = Role.relay then
    { a with relayAddresses := a.relayAddresses ++ [(l.pub, l.internal)] }
  else a

/-- The loading loop over all lines of the address file. -/
def loadGo (rc cc : Nat) (a : Addresses) : List AddrLine → Addresses
  | [] => a
  | l :: rest => loadGo rc cc (stepLine rc cc a l) rest

/-- `evaluate`'s whole address-loading phase, starting from the empty
collections. -/
def loadAddresses (lines : List AddrLine) (rc cc : Nat) : Addresses :=
  loadGo rc cc ⟨none, [], [], []⟩ lines

/-- How many lines of the address file carry a given role. -/
def countRole (lines : List AddrLine) (r : Role) : Nat :=
  (lines.filter (fun l => l.role = r)).length

/-- `replica_count = 2 * f + 1` (line 37). -/
def replicaCount (f : Nat) : Nat := 2 * f + 1

/-- The four `assert` statements guarding the round (lines 52-55). -/
def evalAsserts (a : Addresses) (rc cc : Nat) : Bool :=
  a.seqAddress.isSome && (a.replicaAddresses.length == rc) &&
    (a.clientAddresses.length == cc) && !a.relayAddresses.isEmpty

/-- The remote operations the round issues, in program order. -/
inductive RemoteOp where
  | pkill (addr : String)
  | tmuxLaunch (addr : String) (cmd : List String)
  | interrupt (addr : String)
  | spawnClient (addr : String) (cmd : List String)
  | drainClient (idx : Nat)
deriving DecidableEq, Repr

/-- The sequencer launch command (lines 63-72): note the
`--replica-count` argument is `3 * f + 1`, not `replica_count`. -/
def seqCmd (mcast : String) (f : Nat) (crypto : String) : List String :=
  ["tmux", "new-session", "-d", "-s", "neo", "./neo100-seq",
    "--multicast", mcast, "--replica-count", toString (3 * f + 1),
    "--crypto", crypto]

/-- A relay launch command with its downstream internal addresses. -/
def relayCmd (downstream : List String) : List String :=
  ["tmux", "new-session", "-d", "-s", "neo", "./neo100-relay"] ++ downstream

/-- Replica `i`'s launch command (lines 103-111). -/
def replicaCmd (i : Nat) (f : Nat) (crypto : String) : List String :=
  ["tmux", "new-session", "-d", "-s", "neo", "./neo100-replica",
    "--id", toString i, "--multicast", "239.255.1.1",
    "-f", toString f, "--crypto", crypto]

/-- A client's launch command (lines 116-121). -/
def clientCmd (seqIp : String) (f : Nat) : List String :=
  ["./neo100-client", "--seq-ip", seqIp, "-f", toString f]

/-- One full `evaluate(f, client_count, crypto)` round, given the parsed
address file and the behaviour of the launched clients: the remote
operations issued in order, and either the returned `count` (`none` =
round Failure) or the uncaught exception that aborts the process.  A
failed `assert` raises before any remote operation; an exception in the
collect loop skips the final cleanup. -/
def evaluate (f cc : Nat) (crypto : String) (lines : List AddrLine)
    (clients : List Client) : List RemoteOp × Except PyErr (Option Int) :=
  let rc := replicaCount f
  let a := loadAddresses lines rc cc
  match a.seqAddress with
  | none => ([], .error .assertionError)
  | some seqA =>
    if (a.replicaAddresses.length == rc) && (a.clientAddresses.length == cc)
        && !a.relayAddresses.isEmpty then
      let relay0 := a.relayAddresses.headD ("", "")
      let cleanupPre :=
        (a.clientAddresses.map Prod.fst ++ a.replicaAddresses.map Prod.fst
          ++ [seqA.1] ++ a.relayAddresses.map Prod.fst).map RemoteOp.pkill
      let seqOp := RemoteOp.tmuxLaunch seqA.1 (seqCmd relay0.2 f crypto)
      let layer1 := RemoteOp.tmuxLaunch relay0.1
        (relayCmd ((pySlice a.relayAddresses 1 5).map Prod.snd))
      let layer2 := (pySlice a.relayAddresses 1 5).enum.map (fun p =>
        RemoteOp.tmuxLaunch p.2.1
          (relayCmd ((pySlice a.relayAddresses (5 + 4 * p.1)
            (5 + 4 * (p.1 + 1))).map Prod.snd)))
      let relayCnt := a.relayAddresses.length - 5
      let layer3 := (a.relayAddresses.drop 5).enum.map (fun p =>
        RemoteOp.tmuxLaunch p.2.1
          (relayCmd ((leafSlice a.replicaAddresses rc relayCnt p.1).map
            Prod.snd)))
      let replicaOps := a.replicaAddresses.enum.map (fun p =>
        RemoteOp.tmuxLaunch p.2.1 (replicaCmd p.1 f crypto))
      let clientOps := a.clientAddresses.map (fun ca =>
        RemoteOp.spawnClient ca.1 (clientCmd seqA.2 f))
      let interrupts := (a.replicaAddresses ++ [seqA]
        ++ a.relayAddresses).map (fun p => RemoteOp.interrupt p.1)
      let res := collectResult clients
      let drains := (List.range res.1).map RemoteOp.drainClient
      let pre := cleanupPre ++ [seqOp, layer1] ++ layer2 ++ layer3
        ++ replicaOps ++ clientOps ++ interrupts ++ drains
      match res.2 with
      | .error e => (pre, .error e)
      | .ok v =>
        let cleanupPost :=
          (a.clientAddresses.map Prod.fst ++ a.replicaAddresses.map Prod.fst
            ++ [seqA.1]).map RemoteOp.pkill
        (pre ++ cleanupPost, .ok v)
    else ([], .error .assertionError)

/-- The address file is unable to satisfy the round's requirements: no
sequencer line, fewer than `2f+1` replica lines, fewer than
`client_count` client lines, or no relay line. -/
def deficient (lines : List AddrLine) (f cc : Nat) : Prop :=
  countRole lines Role.seq = 0 ∨ countRole lines Role.replica < replicaCount f
    ∨ countRole lines Role.client < cc ∨ countRole lines Role.relay = 0

/-- The calibration driver's handling of a sequence of round results:
each `.ok` round completes and the loop continues; the first uncaught
exception terminates the process, executing no further round.  Returns
how many rounds were executed and the exception, if any. -/
def runUntilError {α : Type} : List (Except PyErr α) → Nat × Option PyErr
  | [] => (0, none)
  | .ok _ :: rest => ((runUntilError rest).1 + 1, (runUntilError rest).2)
  | .error e :: _ => (1, some e)

/-- A Python process's exit status: non-zero exactly when it died on an
uncaught exception. -/
def processExitCode (r : Nat × Option PyErr) : Nat :=
  if r.2.isSome then 1 else 0

/-- `l` contains the flag `k` immediately followed by the value `v`. -/
def argPair (l : List String) (k v : String) : Prop :=
  ∃ n, l.get? n = some k ∧ l.get? (n + 1) = some v

/-- The calibration state invariant claimed by the spec. -/
def calibInvariant (s : Int × Int) : Prop :=
  1 ≤ s.1 ∧ s.1 ≤ 100 ∧ 1 ≤ s.2

/-- A well-behaved client described by its two output lines: first line
text `t.1` (parsing to the count `t.2.1`), second line `t.2.2`; exits 0. -/
def goodClient (t : String × Int × String) : Client :=
  ⟨0, [t.1, t.2.2], ""⟩

lemma leafSlice_flatten_take (rs : List α) (R : Nat) (_hR : 0 < R) :
    ∀ k, k ≤ R →
      ((List.range k).map (leafSlice rs rs.length R)).flatten =
        rs.take (rs.length * k / R) := by
  intro k
  induction k with
  | zero => simp
  | succ k ih =>
    intro hk
    have hk' : k ≤ R := Nat.le_of_succ_le hk
    have hmono : rs.length * k / R ≤ rs.length * (k + 1) / R :=
      Nat.div_le_div_right (Nat.mul_le_mul le_rfl (Nat.le_succ k))
    rw [List.range_succ, List.map_append, List.flatten_append, ih hk']
    simp only [List.map_cons, List.map_nil, List.flatten_cons, List.flatten_nil,
      List.append_nil]
    rw [leafSlice, pySlice, ← List.take_add]
    congr 1
    omega

lemma leafSlice_length (rs : List α) (R i : Nat) (hR : 0 < R) (hi : i < R) :
    (leafSlice rs rs.length R i).length =
      rs.length * (i + 1) / R - rs.length * i / R := by
  have hle : rs.length * i / R ≤ rs.length * (i + 1) / R :=
    Nat.div_le_div_right (Nat.mul_le_mul le_rfl (Nat.le_succ i))
  have hub : rs.length * (i + 1) / R ≤ rs.length := by
    have h1 : rs.length * (i + 1) ≤ rs.length * R :=
      Nat.mul_le_mul le_rfl hi
    calc rs.length * (i + 1) / R ≤ rs.length * R / R := Nat.div_le_div_right h1
    _ = rs.length := Nat.mul_div_cancel _ hR
  simp only [leafSlice, pySlice, List.length_take, List.length_drop]
  omega

lemma leafSlice_size_bounds (N R i : Nat) (hR : 0 < R) :
    N / R ≤ N * (i + 1) / R - N * i / R ∧
      N * (i + 1) / R - N * i / R ≤ N / R + 1 := by
  have h2 : N * (i + 1) = N * i + N := by ring
  have key : (N * i + N) / R =
      N * i / R + N / R + (if R ≤ N * i % R + N % R then 1 else 0) :=
    Nat.add_div hR
  rcases le_or_lt R (N * i % R + N % R) with hc | hc
  · rw [if_pos hc] at key
    rw [h2, key]
    generalize N * i / R = x
    generalize N / R = y
    omega
  · rw [if_neg (Nat.not_le_of_lt hc)] at key
    rw [h2, key]
    generalize N * i / R = x
    generalize N / R = y
    omega

/-- C1: for every leaf-relay count `R > 0` and every ordered replica list
(of any length `N ≥ 0`), the leaf partition assigning relay `i` the slice
`[N*i // R, N*(i+1) // R)` covers the replica list exactly once — the
concatenation of the `R` slices in relay order is the replica list itself
(hence the slices are pairwise disjoint, contiguous and their union is the
full list) — and the sizes of any two slices differ by at most one. -/
theorem leafSlice_partition {α : Type} (rs : List α) (R : Nat) (hR : 0 < R) :
    ((List.range R).map (leafSlice rs rs.length R)).flatten = rs ∧
      ∀ i j, i < R → j < R →
        (leafSlice rs rs.length R i).length ≤
          (leafSlice rs rs.length R j).length + 1 := by
  constructor
  · rw [leafSlice_flatten_take rs R hR R le_rfl, Nat.mul_div_cancel _ hR,
      List.take_length]
  · intro i j hi hj
    rw [leafSlice_length rs R i hR hi, leafSlice_length rs R j hR hj]
    have hbi := leafSlice_size_bounds rs.length R i hR
    have hbj := leafSlice_size_bounds rs.length R j hR
    omega

/-- Witness for C1: concrete instance with three replicas and two leaf
relays; the two slices concatenate to the full list and their sizes (1 and
2) differ by at most one. -/
theorem leafSlice_partition_witness :
    ((List.range 2).map (leafSlice [10, 20, 30] 3 2)).flatten = [10, 20, 30] ∧
      (leafSlice [10, 20, 30] 3 2 0).length ≤
        (leafSlice [10, 20, 30] 3 2 1).length + 1 := by
  have h := leafSlice_partition [10, 20, 30] 2 (by decide)
  exact ⟨h.1, h.2 0 1 (by decide) (by decide)⟩

/-- C5: a Failure round subtracts `step` (floored at 1, `step` kept); a
Success round first halves `step` (floored at 1) and then adds the new
step (capped at 100); from `(90, 10)` a Failure gives `(80, 10)` and a
subsequent Success gives `(85, 5)`. -/
theorem calibUpdate_cases :
    (∀ s : Int × Int, calibUpdate s true = (max (s.1 - s.2) 1, s.2)) ∧
      (∀ s : Int × Int, calibUpdate s false =
        (min (s.1 + max (s.2.fdiv 2) 1) 100, max (s.2.fdiv 2) 1)) ∧
      calibUpdate (90, 10) true = (80, 10) ∧
      calibUpdate (80, 10) false = (85, 5) :=
  ⟨fun _ => rfl, fun _ => rfl, by decide, by decide⟩

lemma calibUpdate_invariant (s : Int × Int) (b : Bool) (h : calibInvariant s) :
    calibInvariant (calibUpdate s b) := by
  obtain ⟨h1, h2, h3⟩ := h
  cases b with
  | true =>
    show calibInvariant (max (s.1 - s.2) 1, s.2)
    exact ⟨le_max_right _ _, max_le (by omega) (by norm_num), h3⟩
  | false =>
    show calibInvariant (min (s.1 + max (s.2.fdiv 2) 1) 100, max (s.2.fdiv 2) 1)
    have h4 : (1 : Int) ≤ max (s.2.fdiv 2) 1 := le_max_right _ _
    refine ⟨le_min (by omega) (by norm_num), min_le_right _ _, h4⟩

lemma roundsGo_invariant (oracle : Nat → Bool) :
    ∀ n k s, calibInvariant s → ∀ x ∈ roundsGo oracle k n s, calibInvariant x := by
  intro n
  induction n with
  | zero => intro k s _ x hx; simp [roundsGo] at hx
  | succ n ih =>
    intro k s hs x hx
    simp only [roundsGo] at hx
    rcases List.mem_cons.mp hx with h | h
    · subst h; exact calibUpdate_invariant _ _ hs
    · exact ih (k + 1) _ (calibUpdate_invariant _ _ hs) x h

lemma getLastD_prop {α : Type} (P : α → Prop) :
    ∀ (l : List α) (d : α), (∀ x ∈ l, P x) → P d → P (l.getLastD d) := by
  intro l
  induction l with
  | nil => intro d _ hd; exact hd
  | cons a t ih =>
    intro d hl _
    rw [List.getLastD_cons]
    exact ih a (fun x hx => hl x (List.mem_cons_of_mem _ hx))
      (hl a (List.mem_cons_self _ _))

lemma sweepEnd_invariant (oracle : Nat → Bool) (cc : Int)
    (h1 : 1 ≤ cc) (h2 : cc ≤ 100) : calibInvariant (sweepEnd oracle cc) := by
  unfold sweepEnd
  exact getLastD_prop calibInvariant _ _
    (fun x hx =>
      roundsGo_invariant oracle 10 0 (cc, 10) ⟨h1, h2, by norm_num⟩ x hx)
    ⟨h1, h2, by norm_num⟩

lemma mainGo_invariant (oracle : Nat → Nat → Bool) :
    ∀ (fs : List Nat) (cc : Int), 1 ≤ cc → cc ≤ 100 →
      ∀ x ∈ mainGo oracle cc fs, calibInvariant x := by
  intro fs
  induction fs with
  | nil => intro cc _ _ x hx; simp [mainGo] at hx
  | cons fv rest ih =>
    intro cc h1 h2 x hx
    simp only [mainGo] at hx
    rcases List.mem_append.mp hx with h | h
    · exact roundsGo_invariant (oracle fv) 10 0 (cc, 10) ⟨h1, h2, by norm_num⟩ x h
    · have hend := sweepEnd_invariant (oracle fv) cc h1 h2
      exact ih _ hend.1 hend.2.1 x h

/-- C6: starting from `(90, 10)`, after every calibration update of the
whole sweep — all fault parameters, all iterations, any pattern of round
successes and failures — the state satisfies
`1 ≤ client_count ≤ 100` and `step ≥ 1`. -/
theorem mainStates_invariant (oracle : Nat → Nat → Bool) (s : Int × Int)
    (hs : s ∈ mainStates oracle) : calibInvariant s :=
  mainGo_invariant oracle fVals 90 (by norm_num) (by norm_num) s hs

/-- Witness for C6: with every round failing, the state after the very
first round is `(80, 10)`, which satisfies the invariant. -/
theorem mainStates_invariant_witness :
    (80, 10) ∈ mainStates (fun _ _ => true) ∧ calibInvariant ((80 : Int), (10 : Int)) :=
  ⟨by decide, mainStates_invariant (fun _ _ => true) (80, 10) (by decide)⟩

lemma roundsGo_length (oracle : Nat → Bool) :
    ∀ n k s, (roundsGo oracle k n s).length = n := by
  intro n
  induction n with
  | zero => intro k s; rfl
  | succ n ih => intro k s; simp [roundsGo, ih]

lemma mainGo_length (oracle : Nat → Nat → Bool) :
    ∀ (fs : List Nat) (cc : Int), (mainGo oracle cc fs).length = 10 * fs.length := by
  intro fs
  induction fs with
  | nil => intro cc; rfl
  | cons fv rest ih =>
    intro cc
    simp only [mainGo, List.length_append, ih, sweepTrace, roundsGo_length,
      List.length_cons]
    ring

/-- C10: every fault parameter's sweep executes exactly 10 rounds — one
state per executed `evaluate` call — whatever the round outcomes; in
particular the whole run over the 9 fault parameters executes
`10 * 9` rounds, with no early exit. -/
theorem sweep_always_ten_rounds (oracle2 : Nat → Nat → Bool)
    (oracle : Nat → Bool) (cc : Int) :
    (sweepTrace oracle cc).length = 10 ∧
      (mainStates oracle2).length = 10 * fVals.length :=
  ⟨roundsGo_length oracle 10 0 (cc, 10), mainGo_length oracle2 fVals 90⟩

lemma drainGo_fail_break (bad : Client) (hb : bad.returncode ≠ 0) :
    ∀ (good rest : List Client) (count : Int) (lat : Option String),
      (∀ c ∈ good, c.returncode = 0 ∧ (parsesTwo c).isSome) →
      ∃ l', drainGo (good ++ bad :: rest) count lat =
        (good.length + 1, .ok (none, l')) := by
  intro good
  induction good with
  | nil =>
    intro rest count lat _
    exact ⟨lat, by simp [drainGo, hb]⟩
  | cons c good' ih =>
    intro rest count lat hg
    obtain ⟨hrc, hsome⟩ := hg c (List.mem_cons_self _ _)
    obtain ⟨⟨n, l2⟩, hp⟩ := Option.isSome_iff_exists.mp hsome
    obtain ⟨l', ih'⟩ := ih rest (count + n) (some l2)
      (fun x hx => hg x (List.mem_cons_of_mem _ hx))
    refine ⟨l', ?_⟩
    rw [List.cons_append]
    simp [drainGo, hrc, hp, ih']

/-- C2 (amended): when the clients before the first non-zero-exit client
all exit 0 with parseable two-line output, the round is marked Failure
(`evaluate` returns `None`), but only the clients up to and including the
first failing one are drained: the loop `break`s, so draining IS skipped
for the clients after the first failing one. -/
theorem collect_failure_break (good : List Client) (bad : Client)
    (rest : List Client)
    (hg : ∀ c ∈ good, c.returncode = 0 ∧ (parsesTwo c).isSome)
    (hb : bad.returncode ≠ 0) :
    (collectResult (good ++ bad :: rest)).2 = .ok none ∧
      (collectResult (good ++ bad :: rest)).1 = good.length + 1 := by
  obtain ⟨l', h⟩ := drainGo_fail_break bad hb good rest 0 none hg
  unfold collectResult
  rw [h]
  exact ⟨rfl, rfl⟩

/-- Witness for C2 (amended): one good client, then a failing client,
then one more good client: the round fails and exactly two of the three
clients are drained. -/
theorem collect_failure_break_witness :
    (collectResult [⟨0, ["5", "a"], ""⟩, ⟨1, [], "e"⟩, ⟨0, ["6", "b"], ""⟩]).2 =
        .ok none ∧
      (collectResult [⟨0, ["5", "a"], ""⟩, ⟨1, [], "e"⟩, ⟨0, ["6", "b"], ""⟩]).1 =
        2 := by
  have h := collect_failure_break [⟨0, ["5", "a"], ""⟩] ⟨1, [], "e"⟩
    [⟨0, ["6", "b"], ""⟩] (by decide) (by decide)
  simpa using h

/-- Counterexample to C2 as stated: two launched clients, the first
exits non-zero; the round is marked Failure but only 1 of the 2 clients
is drained — draining IS skipped after the first failing client. -/
theorem collect_drain_skipped_cex :
    ([⟨1, ["0", "x"], "boom"⟩, ⟨0, ["5", "y"], ""⟩] : List Client).any
        (fun c => c.returncode != 0) = true ∧
      (collectResult [⟨1, ["0", "x"], "boom"⟩, ⟨0, ["5", "y"], ""⟩]).2 =
        .ok none ∧
      (collectResult [⟨1, ["0", "x"], "boom"⟩, ⟨0, ["5", "y"], ""⟩]).1 = 1 ∧
      ([⟨1, ["0", "x"], "boom"⟩, ⟨0, ["5", "y"], ""⟩] : List Client).length =
        2 := by
  decide

lemma drainGo_cons_good (c : Client) (rest : List Client) (count : Int)
    (lat : Option String) (n : Int) (l2 : String)
    (hrc : c.returncode = 0) (hp : parsesTwo c = some (n, l2)) :
    drainGo (c :: rest) count lat =
      ((drainGo rest (count + n) (some l2)).1 + 1,
        (drainGo rest (count + n) (some l2)).2) := by
  simp [drainGo, hrc, hp]

lemma drainGo_good :
    ∀ (ts : List (String × Int × String)) (count : Int) (lat : Option String),
      (∀ t ∈ ts, parsePyInt t.1 = some t.2.1) →
      drainGo (ts.map goodClient) count lat =
        (ts.length, .ok (some (count + (ts.map (fun t => t.2.1)).sum),
          (ts.map (fun t => some t.2.2)).getLastD lat)) := by
  intro ts
  induction ts with
  | nil => intro count lat _; simp [drainGo]
  | cons t ts' ih =>
    intro count lat hp
    have hpt := hp t (List.mem_cons_self _ _)
    have hptw : parsesTwo (goodClient t) = some (t.2.1, t.2.2) := by
      simp [goodClient, parsesTwo, hpt]
    have ih' := ih (count + t.2.1) (some t.2.2)
      (fun x hx => hp x (List.mem_cons_of_mem _ hx))
    rw [List.map_cons, drainGo_cons_good _ _ _ _ _ _ rfl hptw, ih']
    simp only [List.map_cons, List.sum_cons, List.length_cons,
      List.getLastD_cons, add_assoc]

lemma getLastD_map_some {α β : Type} (f : α → β) :
    ∀ (l : List α) (h : l ≠ []) (d : Option β),
      (l.map (fun x => some (f x))).getLastD d = some (f (l.getLast h)) := by
  intro l
  induction l with
  | nil => intro h; cases h rfl
  | cons a t ih =>
    intro h d
    cases t with
    | nil => simp
    | cons b t' =>
      rw [List.map_cons, List.getLastD_cons, ih (by simp)]
      simp [List.getLast_cons]

/-- C3 (amended): for a successful round whose clients each emit two
stdout lines (a parseable count, then a latency string), the reported
throughput is the sum of the counts divided by the fixed window constant
10, but the reported latency sample is the LAST client's latency string
(stripped), not the first one's: the loop overwrites `latency` on every
iteration and the `output_lantecy` first-only flag guards only a
commented-out print. -/
theorem collectReport_success (ts : List (String × Int × String)) (h : ts ≠ [])
    (hp : ∀ t ∈ ts, parsePyInt t.1 = some t.2.1) :
    collectReport (ts.map goodClient) =
      .ok (some ((((ts.map (fun t => t.2.1)).sum : Int) : ℚ) / 10,
        pyStrip (ts.getLast h).2.2)) := by
  have hd := drainGo_good ts 0 none hp
  have hLat := getLastD_map_some (fun t : String × Int × String => t.2.2) ts h
    none
  unfold collectReport
  rw [hd, hLat]
  simp

/-- Witness for C3 (amended): clients outputting `["120","5us"]` and
`["80","7us"]` give throughput `(120+80)/10 = 20` and latency sample
`"7us"` — the second (last) client's. -/
theorem collectReport_success_witness :
    collectReport ([("120", 120, "5us"), ("80", 80, "7us")].map goodClient) =
      .ok (some (20, "7us")) := by
  have h := collectReport_success
    [("120", (120 : Int), "5us"), ("80", (80 : Int), "7us")] (by decide)
    (by decide)
  rw [h]
  have h1 : ((([("120", (120 : Int), "5us"), ("80", (80 : Int), "7us")].map
      (fun t => t.2.1)).sum : Int) : ℚ) / 10 = 20 := by
    norm_num
  have h2 : pyStrip (([("120", (120 : Int), "5us"),
      ("80", (80 : Int), "7us")].getLast (by decide)).2.2) = "7us" := by
    decide
  rw [h1, h2]

/-- Counterexample to C3 as stated: with client outputs `["120","5us"]`
and `["80","7us"]` the reported latency sample is `"7us"` — the last
client's, not the first client's `"5us"` (the throughput part, 20, does
hold). -/
theorem collectReport_first_latency_cex :
    collectReport [⟨0, ["120", "5us"], ""⟩, ⟨0, ["80", "7us"], ""⟩] =
        .ok (some (20, "7us")) ∧ ("7us" : String) ≠ "5us" := by
  constructor
  · have hd : drainGo [⟨0, ["120", "5us"], ""⟩, ⟨0, ["80", "7us"], ""⟩] 0 none =
        (2, .ok (some 200, some "7us")) := by decide
    unfold collectReport
    rw [hd]
    have h2 : pyStrip "7us" = "7us" := by decide
    show Except.ok (some (((200 : Int) : ℚ) / 10, pyStrip "7us")) =
      .ok (some (20, "7us"))
    rw [h2]
    norm_num
  · decide

lemma drainGo_parse_crash (c : Client) (hc0 : c.returncode = 0)
    (hcp : parsesTwo c = none) :
    ∀ (good rest : List Client) (count : Int) (lat : Option String),
      (∀ x ∈ good, x.returncode = 0 ∧ (parsesTwo x).isSome) →
      drainGo (good ++ c :: rest) count lat =
        (good.length + 1, .error .valueError) := by
  intro good
  induction good with
  | nil =>
    intro rest count lat _
    simp [drainGo, hc0, hcp]
  | cons g good' ih =>
    intro rest count lat hg
    obtain ⟨hrc, hsome⟩ := hg g (List.mem_cons_self _ _)
    obtain ⟨⟨n, l2⟩, hp⟩ := Option.isSome_iff_exists.mp hsome
    have ih' := ih rest (count + n) (some l2)
      (fun x hx => hg x (List.mem_cons_of_mem _ hx))
    rw [List.cons_append, drainGo_cons_good _ _ _ _ _ _ hrc hp, ih']
    simp

/-- C4 (amended): a client that exits 0 but whose stdout is not exactly
two lines with an integer first line raises an uncaught `ValueError`
(unlike a non-zero exit, which merely marks the round Failure): the
round does not produce the Failure value, the exception propagates out
of `evaluate` and `run`, the calibration sweep executes no further
round, and the process exits non-zero. -/
theorem collect_parse_crash (good : List Client) (c : Client)
    (rest : List Client)
    (hg : ∀ x ∈ good, x.returncode = 0 ∧ (parsesTwo x).isSome)
    (hc0 : c.returncode = 0) (hcp : parsesTwo c = none) :
    (collectResult (good ++ c :: rest)).2 = .error .valueError ∧
      (collectResult (good ++ c :: rest)).2 ≠ .ok none ∧
      (∀ post : List (Except PyErr (Option Int)),
        runUntilError ((collectResult (good ++ c :: rest)).2 :: post) =
          (1, some PyErr.valueError)) ∧
      processExitCode
        (runUntilError [(collectResult (good ++ c :: rest)).2]) = 1 := by
  have hd := drainGo_parse_crash c hc0 hcp good rest 0 none hg
  have hres : (collectResult (good ++ c :: rest)).2 = .error .valueError := by
    unfold collectResult
    rw [hd]
  refine ⟨hres, ?_, ?_, ?_⟩
  · rw [hres]
    intro hc
    cases hc
  · intro post
    rw [hres]
    rfl
  · rw [hres]
    rfl

/-- Witness for C4 (amended): a single client exiting 0 with a one-line
output: uncaught `ValueError`, process exit status 1, no further round. -/
theorem collect_parse_crash_witness :
    (collectResult [⟨0, ["7"], ""⟩]).2 = .error .valueError ∧
      (collectResult [⟨0, ["7"], ""⟩]).2 ≠ .ok none ∧
      runUntilError [(collectResult [⟨0, ["7"], ""⟩]).2] =
        (1, some PyErr.valueError) ∧
      processExitCode (runUntilError [(collectResult [⟨0, ["7"], ""⟩]).2]) =
        1 := by
  have h := collect_parse_crash [] ⟨0, ["7"], ""⟩ [] (by decide) (by decide)
    (by decide)
  exact ⟨h.1, h.2.1, by simpa using h.2.2.1 [], h.2.2.2⟩

/-- Counterexample to C4 as stated: one client exits 0 with stdout lines
`["abc","5us"]` (non-integer first line); the outcome is an uncaught
`ValueError` — not the round-Failure value a non-zero exit produces —
and the process terminates instead of the sweep continuing. -/
theorem collect_parse_crash_cex :
    (collectResult [⟨0, ["abc", "5us"], ""⟩]).2 = .error .valueError ∧
      (collectResult [⟨0, ["abc", "5us"], ""⟩]).2 ≠ .ok none ∧
      runUntilError [(collectResult [⟨0, ["abc", "5us"], ""⟩]).2] =
        (1, some PyErr.valueError) ∧
      processExitCode
        (runUntilError [(collectResult [⟨0, ["abc", "5us"], ""⟩]).2]) = 1 := by
  decide

lemma sweepEntries_step_ten (oracle : Nat → Nat → Bool) :
    ∀ (fs : List Nat) (cc : Int), ∀ e ∈ sweepEntries oracle cc fs, e.2 = 10 := by
  intro fs
  induction fs with
  | nil => intro cc e he; simp [sweepEntries] at he
  | cons fv rest ih =>
    intro cc e he
    simp only [sweepEntries] at he
    rcases List.mem_cons.mp he with h | h
    · subst h; rfl
    · exact ih _ e h

lemma sweepEntries_get_succ (oracle : Nat → Nat → Bool) :
    ∀ (fs : List Nat) (cc : Int) (k : Nat) (c : Int),
      (sweepEntries oracle cc fs).get? k = some (c, 10) →
      k + 1 < fs.length →
      (sweepEntries oracle cc fs).get? (k + 1) =
        some ((sweepEnd (oracle (fs.getD k 0)) c).1, 10) := by
  intro fs
  induction fs with
  | nil => intro cc k c _ hk; simp at hk
  | cons fv rest ih =>
    intro cc k c h hk
    cases k with
    | zero =>
      have hc : cc = c := by simpa [sweepEntries] using h
      subst hc
      cases rest with
      | nil => simp at hk
      | cons fv2 rest2 => simp [sweepEntries, List.getD]
    | succ k' =>
      simp only [sweepEntries, List.get?_cons_succ] at h ⊢
      have hk' : k' + 1 < rest.length := by simpa using hk
      simpa using ih _ k' c h hk'

/-- C8 (amended): `client_count` is initialized to 90 once, before the
first fault parameter's sweep, and carried forward: each subsequent sweep
is entered with the `client_count` the previous sweep ended with.
`step`, by contrast, is re-initialized to 10 at the start of every fault
parameter's sweep rather than carried forward. -/
theorem sweepEntries_carry (oracle : Nat → Nat → Bool) :
    (mainEntries oracle).head? = some (90, 10) ∧
      (∀ e ∈ mainEntries oracle, e.2 = 10) ∧
      (∀ k c, (mainEntries oracle).get? k = some (c, 10) →
        k + 1 < fVals.length →
        (mainEntries oracle).get? (k + 1) =
          some ((sweepEnd (oracle (fVals.getD k 0)) c).1, 10)) :=
  ⟨rfl, sweepEntries_step_ten oracle fVals 90,
    fun k c h hk => sweepEntries_get_succ oracle fVals 90 k c h hk⟩

/-- Witness for C8 (amended): with every round failing, the second sweep
is entered with the `client_count` (1) the first sweep ended with, and
with `step` re-initialized to 10. -/
theorem sweepEntries_carry_witness :
    (mainEntries (fun _ _ => true)).get? 1 = some (1, 10) := by
  have h := (sweepEntries_carry (fun _ _ => true)).2.2 0 90 (by decide) (by decide)
  rw [h]
  decide

/-- Counterexample to C8 as stated: with every round failing, the state
entering the second fault parameter's sweep is `(1, 10)`, not the claimed
re-initialized `(90, 10)`: `client_count` is carried forward across fault
parameters, not re-initialized per sweep. -/
theorem sweepEntries_reset_cex :
    (mainEntries (fun _ _ => true)).get? 1 = some (1, 10) ∧
      ((1 : Int), (10 : Int)) ≠ ((90 : Int), (10 : Int)) := by
  decide

/-- C7: a round with fault parameter `f` uses exactly `2f+1` replicas —
the asserts force exactly `replicaCount f = 2f+1` loaded replica
addresses, and the replica-launch phase issues one launch per loaded
replica, the `i`-th with `--id i` and `-f f` — while the sequencer's
launch command carries `--replica-count (3f+1)`; for `f = 0` both counts
are 1. -/
theorem evaluate_counts (f cc : Nat) (crypto : String) (lines : List AddrLine)
    (h : evalAsserts (loadAddresses lines (replicaCount f) cc)
      (replicaCount f) cc = true) :
    (loadAddresses lines (replicaCount f) cc).replicaAddresses.length =
        2 * f + 1 ∧
      ((loadAddresses lines (replicaCount f) cc).replicaAddresses.enum.map
        (fun p => RemoteOp.tmuxLaunch p.2.1 (replicaCmd p.1 f crypto))).length =
        2 * f + 1 ∧
      (∀ i, argPair (replicaCmd i f crypto) "--id" (toString i) ∧
        argPair (replicaCmd i f crypto) "-f" (toString f)) ∧
      (∀ m, argPair (seqCmd m f crypto) "--replica-count"
        (toString (3 * f + 1))) ∧
      replicaCount 0 = 1 ∧ 3 * 0 + 1 = 1 := by
  have hlen : (loadAddresses lines (replicaCount f) cc).replicaAddresses.length =
      2 * f + 1 := by
    unfold evalAsserts at h
    simp only [Bool.and_eq_true, beq_iff_eq] at h
    exact h.1.1.2
  refine ⟨hlen, ?_, ?_, ?_, rfl, rfl⟩
  · rw [List.length_map, List.enum_length]
    exact hlen
  · intro i
    exact ⟨⟨6, rfl, rfl⟩, ⟨10, rfl, rfl⟩⟩
  · intro m
    exact ⟨8, rfl, rfl⟩

/-- Witness for C7: with an address file holding one entry per role and
`f = 0`, the asserts pass, exactly `2·0+1 = 1` replica address is
loaded, and the sequencer command carries `--replica-count 1`. -/
theorem evaluate_counts_witness :
    (loadAddresses [⟨Role.seq, "s", "si"⟩, ⟨Role.replica, "r", "ri"⟩,
        ⟨Role.client, "c", "ci"⟩, ⟨Role.relay, "y", "yi"⟩]
        (replicaCount 0) 1).replicaAddresses.length = 1 ∧
      argPair (seqCmd "239.255.2.1" 0 "siphash") "--replica-count"
        (toString 1) := by
  have h := evaluate_counts 0 1 "siphash"
    [⟨Role.seq, "s", "si"⟩, ⟨Role.replica, "r", "ri"⟩,
      ⟨Role.client, "c", "ci"⟩, ⟨Role.relay, "y", "yi"⟩] (by decide)
  exact ⟨h.1, h.2.2.2.1 "239.255.2.1"⟩

lemma stepLine_replica (rc cc : Nat) (a : Addresses) (l : AddrLine) :
    (stepLine rc cc a l).replicaAddresses =
      if l.role = Role.replica ∧ a.replicaAddresses.length < rc then
        a.replicaAddresses ++ [(l.pub, l.internal)]
      else a.replicaAddresses := by
  rcases l with ⟨r, p, q⟩
  cases r <;> simp [stepLine, apply_ite]

lemma stepLine_client (rc cc : Nat) (a : Addresses) (l : AddrLine) :
    (stepLine rc cc a l).clientAddresses =
      if l.role = Role.client ∧ a.clientAddresses.length < cc then
        a.clientAddresses ++ [(l.pub, none)]
      else a.clientAddresses := by
  rcases l with ⟨r, p, q⟩
  cases r <;> simp [stepLine, apply_ite]

lemma stepLine_seq (rc cc : Nat) (a : Addresses) (l : AddrLine) :
    (stepLine rc cc a l).seqAddress =
      if l.role = Role.seq then
        a.seqAddress.orElse (fun _ => some (l.pub, l.internal))
      else a.seqAddress := by
  rcases l with ⟨r, p, q⟩
  cases r <;> simp [stepLine, apply_ite]

lemma stepLine_relay (rc cc : Nat) (a : Addresses) (l : AddrLine) :
    (stepLine rc cc a l).relayAddresses =
      if l.role = Role.relay then a.relayAddresses ++ [(l.pub, l.internal)]
      else a.relayAddresses := by
  rcases l with ⟨r, p, q⟩
  cases r <;> simp [stepLine, apply_ite]

lemma countRole_cons (l : AddrLine) (rest : List AddrLine) (r : Role) :
    countRole (l :: rest) r =
      if l.role = r then countRole rest r + 1 else countRole rest r := by
  simp only [countRole, List.filter_cons]
  split <;> simp_all

lemma loadGo_replica_length (rc cc : Nat) :
    ∀ (lines : List AddrLine) (a : Addresses),
      a.replicaAddresses.length ≤ rc →
      (loadGo rc cc a lines).replicaAddresses.length =
        min (a.replicaAddresses.length + countRole lines Role.replica) rc := by
  intro lines
  induction lines with
  | nil =>
    intro a ha
    simp only [loadGo, countRole, List.filter_nil, List.length_nil, Nat.add_zero]
    omega
  | cons l rest ih =>
    intro a ha
    rw [loadGo, countRole_cons]
    have hstep := stepLine_replica rc cc a l
    by_cases hl : l.role = Role.replica
    · by_cases hlen : a.replicaAddresses.length < rc
      · have hrepl : (stepLine rc cc a l).replicaAddresses =
            a.replicaAddresses ++ [(l.pub, l.internal)] := by
          rw [hstep, if_pos ⟨hl, hlen⟩]
        rw [ih _ (by rw [hrepl]; simp; omega), hrepl, if_pos hl]
        simp only [List.length_append, List.length_cons, List.length_nil]
        omega
      · have hrepl : (stepLine rc cc a l).replicaAddresses =
            a.replicaAddresses := by
          rw [hstep, if_neg (by tauto)]
        rw [ih _ (by rw [hrepl]; omega), hrepl, if_pos hl]
        omega
    · have hrepl : (stepLine rc cc a l).replicaAddresses =
          a.replicaAddresses := by
        rw [hstep, if_neg (by tauto)]
      rw [ih _ (by rw [hrepl]; omega), hrepl, if_neg hl]

lemma loadGo_client_length (rc cc : Nat) :
    ∀ (lines : List AddrLine) (a : Addresses),
      a.clientAddresses.length ≤ cc →
      (loadGo rc cc a lines).clientAddresses.length =
        min (a.clientAddresses.length + countRole lines Role.client) cc := by
  intro lines
  induction lines with
  | nil =>
    intro a ha
    simp only [loadGo, countRole, List.filter_nil, List.length_nil, Nat.add_zero]
    omega
  | cons l rest ih =>
    intro a ha
    rw [loadGo, countRole_cons]
    have hstep := stepLine_client rc cc a l
    by_cases hl : l.role = Role.client
    · by_cases hlen : a.clientAddresses.length < cc
      · have hrepl : (stepLine rc cc a l).clientAddresses =
            a.clientAddresses ++ [(l.pub, none)] := by
          rw [hstep, if_pos ⟨hl, hlen⟩]
        rw [ih _ (by rw [hrepl]; simp; omega), hrepl, if_pos hl]
        simp only [List.length_append, List.length_cons, List.length_nil]
        omega
      · have hrepl : (stepLine rc cc a l).clientAddresses =
            a.clientAddresses := by
          rw [hstep, if_neg (by tauto)]
        rw [ih _ (by rw [hrepl]; omega), hrepl, if_pos hl]
        omega
    · have hrepl : (stepLine rc cc a l).clientAddresses =
          a.clientAddresses := by
        rw [hstep, if_neg (by tauto)]
      rw [ih _ (by rw [hrepl]; omega), hrepl, if_neg hl]

lemma loadGo_seq_none (rc cc : Nat) :
    ∀ (lines : List AddrLine) (a : Addresses),
      countRole lines Role.seq = 0 →
      (loadGo rc cc a lines).seqAddress = a.seqAddress := by
  intro lines
  induction lines with
  | nil => intro a _; rfl
  | cons l rest ih =>
    intro a hcnt
    rw [countRole_cons] at hcnt
    by_cases hl : l.role = Role.seq
    · rw [if_pos hl] at hcnt; omega
    · rw [if_neg hl] at hcnt
      rw [loadGo, ih _ hcnt, stepLine_seq, if_neg hl]

lemma loadGo_relay_length (rc cc : Nat) :
    ∀ (lines : List AddrLine) (a : Addresses),
      (loadGo rc cc a lines).relayAddresses.length =
        a.relayAddresses.length + countRole lines Role.relay := by
  intro lines
  induction lines with
  | nil =>
    intro a
    simp [loadGo, countRole]
  | cons l rest ih =>
    intro a
    rw [loadGo, countRole_cons, ih, stepLine_relay]
    by_cases hl : l.role = Role.relay
    · rw [if_pos hl, if_pos hl]
      simp only [List.length_append, List.length_cons, List.length_nil]
      omega
    · rw [if_neg hl, if_neg hl]

lemma loadAddresses_replica_length (lines : List AddrLine) (rc cc : Nat) :
    (loadAddresses lines rc cc).replicaAddresses.length =
      min (countRole lines Role.replica) rc := by
  unfold loadAddresses
  rw [loadGo_replica_length rc cc lines _ (by simp)]
  simp

lemma loadAddresses_client_length (lines : List AddrLine) (rc cc : Nat) :
    (loadAddresses lines rc cc).clientAddresses.length =
      min (countRole lines Role.client) cc := by
  unfold loadAddresses
  rw [loadGo_client_length rc cc lines _ (by simp)]
  simp

lemma loadAddresses_seq_none (lines : List AddrLine) (rc cc : Nat)
    (h : countRole lines Role.seq = 0) :
    (loadAddresses lines rc cc).seqAddress = none := by
  unfold loadAddresses
  rw [loadGo_seq_none rc cc lines _ h]

lemma loadAddresses_relay_length (lines : List AddrLine) (rc cc : Nat) :
    (loadAddresses lines rc cc).relayAddresses.length =
      countRole lines Role.relay := by
  unfold loadAddresses
  rw [loadGo_relay_length]
  simp

lemma runUntilError_ok_map {α : Type} (e : PyErr) :
    ∀ (pre : List α) (post : List (Except PyErr α)),
      runUntilError (pre.map Except.ok ++ .error e :: post) =
        (pre.length + 1, some e) := by
  intro pre
  induction pre with
  | nil => intro post; rfl
  | cons x pre' ih =>
    intro post
    simp only [List.map_cons, List.cons_append, runUntilError, List.length_cons]
    rw [List.append_eq, ih post]

/-- C9: whenever the address file lacks a sequencer entry, has fewer than
`2f+1` replica entries, fewer than `client_count` client entries, or no
relay entry, the round dies on a failed `assert` before issuing any
remote operation (no cleanup kill, launch, or signal), the exception is
not retried (however many successful rounds preceded, the failing round
is the last one executed), and the process exits non-zero. -/
theorem evaluate_deficient (f cc : Nat) (crypto : String)
    (lines : List AddrLine) (clients : List Client)
    (h : deficient lines f cc) :
    evaluate f cc crypto lines clients = ([], .error .assertionError) ∧
      (∀ (pre : List (Option Int)) (post : List (Except PyErr (Option Int))),
        runUntilError (pre.map Except.ok ++
          (evaluate f cc crypto lines clients).2 :: post) =
          (pre.length + 1, some PyErr.assertionError)) ∧
      processExitCode
        (runUntilError [(evaluate f cc crypto lines clients).2]) = 1 := by
  have hEval : evaluate f cc crypto lines clients =
      ([], .error .assertionError) := by
    rcases h with hs | hr | hcl | hy
    · have hseq := loadAddresses_seq_none lines (replicaCount f) cc hs
      simp only [evaluate]
      rw [hseq]
    · rcases hseq : (loadAddresses lines (replicaCount f) cc).seqAddress
        with _ | s
      · simp only [evaluate]
        rw [hseq]
      · have hlen : ((loadAddresses lines
            (replicaCount f) cc).replicaAddresses.length ==
            replicaCount f) = false := by
          rw [loadAddresses_replica_length lines (replicaCount f) cc]
          simp only [beq_eq_false_iff_ne, ne_eq]
          omega
        simp only [evaluate]
        rw [hseq, hlen]
        rfl
    · rcases hseq : (loadAddresses lines (replicaCount f) cc).seqAddress
        with _ | s
      · simp only [evaluate]
        rw [hseq]
      · have hlen : ((loadAddresses lines
            (replicaCount f) cc).clientAddresses.length == cc) = false := by
          rw [loadAddresses_client_length lines (replicaCount f) cc]
          simp only [beq_eq_false_iff_ne, ne_eq]
          omega
        simp only [evaluate]
        rw [hseq, hlen]
        simp
    · rcases hseq : (loadAddresses lines (replicaCount f) cc).seqAddress
        with _ | s
      · simp only [evaluate]
        rw [hseq]
      · have hemp : (loadAddresses lines
            (replicaCount f) cc).relayAddresses.isEmpty = true := by
          rw [List.isEmpty_iff_length_eq_zero,
            loadAddresses_relay_length lines (replicaCount f) cc]
          omega
        simp only [evaluate]
        rw [hseq, hemp]
        simp
  refine ⟨hEval, ?_, ?_⟩
  · intro pre post
    rw [hEval]
    exact runUntilError_ok_map PyErr.assertionError pre post
  · rw [hEval]
    rfl

/-- Witness for C9: an empty address file (every role missing) with
`f = 0`, `client_count = 1`: the round returns the assert failure with
zero remote operations issued and the process exit status is 1. -/
theorem evaluate_deficient_witness :
    evaluate 0 1 "siphash" [] [] = ([], .error .assertionError) ∧
      processExitCode (runUntilError [(evaluate 0 1 "siphash" [] []).2]) =
        1 := by
  have h := evaluate_deficient 0 1 "siphash" [] []
    (by unfold deficient; left; decide)
  exact ⟨h.1, h.2.2⟩

end Neo100
